import Mathlib

/-!
Shallow embedding of `src/index.ts`: a streaming group-by-and-transform
pipeline built from two async-generator operators, `groupBy` and `map`,
composed in `main` to turn an ordered row stream into domain objects
("Reservations") and serialized lines.

Async generators over a finite stream are modelled as functions on
`List`; the JavaScript value `undefined` (the sentinel used by
`groupBy`'s `currentGroupKey` and a possible key value) is modelled as
`none` in `Option K`, and SQL `NULL` in row fields as `none` in the
corresponding `Option` field.
-/

/-- Row shape produced by the left join in `main`: every `RESERVATION`
column is present, while the `RESERVATION_LINE` columns are `NULL`
(modelled `none`) when the reservation has no lines. -/
structure Row where
  reservation_id : Int
  store_id : String
  reservation_line_id : Option String
  description : Option String
  quantity : Option Int
deriving DecidableEq, Repr

/-- The `Line` type of `src/index.ts`. The TypeScript annotation declares
`id : string`, but at runtime the unchecked `as Reservation` cast lets the
`NULL`s of the left join flow through, so the runtime-faithful type of each
field is optional. -/
structure Line where
  id : Option String
  description : Option String
  quantity : Option Int
deriving DecidableEq, Repr

/-- The `Reservation` type of `src/index.ts`. -/
structure Reservation where
  id : Int
  storeId : String
  lines : List Line
deriving DecidableEq, Repr

/-- State-passing form of the loop body of `groupBy` in `src/index.ts`:
arguments are `currentGroupKey` (JS `undefined` = `none`), `currentGroup`,
and the remaining input. After the loop, the non-empty final group is
emitted. -/
def groupByAux {K T : Type} [DecidableEq K] (f : T → Option K) :
    Option K → List T → List T → List (List T)
  | _currentGroupKey, currentGroup, [] =>
      if currentGroup.length > 0 then [currentGroup] else []
  | currentGroupKey, currentGroup, row :: rest =>
      if currentGroupKey = none then
        groupByAux f (f row) (currentGroup ++ [row]) rest
      else if currentGroupKey ≠ f row then
        currentGroup :: groupByAux f (f row) ([] ++ [row]) rest
      else
        groupByAux f currentGroupKey (currentGroup ++ [row]) rest

/-- `groupBy(rows, f)` of `src/index.ts`: `currentGroupKey` starts as
`undefined` and `currentGroup` as `[]`. -/
def groupBy {K T : Type} [DecidableEq K] (rows : List T) (f : T → Option K) :
    List (List T) :=
  groupByAux f none [] rows

/-- `map(rows, f)` of `src/index.ts`: yield `f row` for each row pulled
from upstream. -/
def map {T B : Type} (rows : List T) (f : T → B) : List B :=
  match rows with
  | [] => []
  | row :: rest => f row :: map rest f

/-- The error behaviour of `map` when `f` may throw: the generator body
`yield f(row)` rethrows out of the loop, so the output is the mapped
prefix before the first throwing element together with the propagated
failure, and no further input is pulled. -/
def mapExcept {T B E : Type} (f : T → Except E B) : List T → List B × Option E
  | [] => ([], none)
  | row :: rest =>
      match f row with
      | Except.ok b =>
          let p := mapExcept f rest
          (b :: p.1, p.2)
      | Except.error e => ([], some e)

/-- The group-to-`Reservation` transform passed to the inner `map` in
`main`: parent fields are read off `groupedRows[0]`, and when the first
row's `reservation_line_id` is not `null` the line list is built by
mapping over ALL rows of the group; otherwise it is `[]`. Indexing `[0]`
on an empty group has no defined result, hence `Option`. -/
def groupToReservation (groupedRows : List Row) : Option Reservation :=
  match groupedRows with
  | [] => none
  | firstRow :: rest =>
      some ⟨firstRow.reservation_id, firstRow.store_id,
        if firstRow.reservation_line_id ≠ none then
          (firstRow :: rest).map (fun row =>
            ⟨row.reservation_line_id, row.description, row.quantity⟩)
        else []⟩

/-- The key function `(r) => r["reservation_id"]` used in `main`; the
column is the join's left key and is never `NULL`. -/
def reservationKey (r : Row) : Option Int :=
  some r.reservation_id

/-- The composed grouping-and-transform stages of `main`, up to (but not
including) serialization: `map(groupBy(rows, key), groupToReservation)`. -/
def groupedReservations (rows : List Row) : List (Option Reservation) :=
  map (groupBy rows reservationKey) groupToReservation

/-- Number of maximal runs of equal consecutive elements of a list. -/
def countRuns {K : Type} [DecidableEq K] : List K → Nat
  | [] => 0
  | [_] => 1
  | a :: b :: rest => (if a = b then 0 else 1) + countRuns (b :: rest)

/-- The sorted-by-key precondition: all equal keys are contiguous, i.e.
any element lying between two equal elements equals them. -/
def contiguousKeys {K : Type} [DecidableEq K] (ks : List K) : Prop :=
  ∀ i j l : Fin ks.length, (i : Nat) < (j : Nat) → (j : Nat) < (l : Nat) →
    ks.get i = ks.get l → ks.get j = ks.get l

instance contiguousKeysDecidable {K : Type} [DecidableEq K] (ks : List K) :
    Decidable (contiguousKeys ks) :=
  inferInstanceAs (Decidable (∀ i j l : Fin ks.length,
    (i : Nat) < (j : Nat) → (j : Nat) < (l : Nat) →
    ks.get i = ks.get l → ks.get j = ks.get l))

/-- The spec's description of the child list, stated in its own words for
comparison with `groupToReservation`: "the child list [contains] exactly
the projections of those records in the Group whose child-identifying
field is non-null". -/
def specChildList (groupedRows : List Row) : List Line :=
  (groupedRows.filter (fun r => r.reservation_line_id.isSome)).map
    (fun row => ⟨row.reservation_line_id, row.description, row.quantity⟩)

-- ### Helper lemmas

theorem groupByAux_join {K T : Type} [DecidableEq K] (f : T → Option K) :
    ∀ (rows : List T) (curKey : Option K) (g : List T),
      (groupByAux f curKey g rows).flatten = g ++ rows := by
  intro rows
  induction rows with
  | nil =>
      intro curKey g
      by_cases hg : g.length > 0
      · simp [groupByAux, hg]
      · have hnil : g = [] := by simpa using hg
        subst hnil
        simp [groupByAux]
  | cons row rest ih =>
      intro curKey g
      by_cases h0 : curKey = none
      · simp [groupByAux, h0, ih]
      · by_cases h1 : curKey ≠ f row
        · simp [groupByAux, h0, h1, ih]
        · simp [groupByAux, h0, h1, ih]

theorem map_eq_list_map {T B : Type} (rows : List T) (f : T → B) :
    map rows f = rows.map f := by
  induction rows with
  | nil => rfl
  | cons row rest ih => simp [map, ih]

theorem groupByAux_length_countRuns {K T : Type} [DecidableEq K] (f : T → K) :
    ∀ (rows : List T) (k : K) (g : List T), g ≠ [] →
      (groupByAux (fun r => some (f r)) (some k) g rows).length
        = countRuns (k :: rows.map f) := by
  intro rows
  induction rows with
  | nil =>
      intro k g hg
      simp [groupByAux, countRuns, List.length_pos.mpr hg]
  | cons row rest ih =>
      intro k g hg
      by_cases hk : f row = k
      · have h1 := ih k (g ++ [row]) (by simp)
        simp [groupByAux, hk, countRuns, h1]
      · have hne : k ≠ f row := fun h => hk h.symm
        have h1 := ih (f row) [row] (by simp)
        simp [groupByAux, hk, hne, countRuns, h1, Nat.add_comm]

theorem groupByAux_sameKey {K T : Type} [DecidableEq K] (f : T → K) :
    ∀ (rows : List T) (k : K) (g : List T), g ≠ [] → (∀ a ∈ g, f a = k) →
      ∀ gr ∈ groupByAux (fun r => some (f r)) (some k) g rows,
        gr ≠ [] ∧ ∀ a ∈ gr, ∀ b ∈ gr, f a = f b := by
  intro rows
  induction rows with
  | nil =>
      intro k g hg hkeys gr hgr
      simp [groupByAux, List.length_pos.mpr hg] at hgr
      subst hgr
      exact ⟨hg, fun a ha b hb => (hkeys a ha).trans (hkeys b hb).symm⟩
  | cons row rest ih =>
      intro k g hg hkeys gr hgr
      by_cases hk : f row = k
      · refine ih k (g ++ [row]) (by simp) ?_ gr ?_
        · intro a ha
          rcases List.mem_append.mp ha with h | h
          · exact hkeys a h
          · simp at h
            subst h
            exact hk
        · simpa [groupByAux, hk] using hgr
      · have hne : k ≠ f row := fun h => hk h.symm
        have hgr2 : gr = g ∨
            gr ∈ groupByAux (fun r => some (f r)) (some (f row)) [row] rest := by
          simpa [groupByAux, hne] using hgr
        rcases hgr2 with h | h
        · subst h
          exact ⟨hg, fun a ha b hb => (hkeys a ha).trans (hkeys b hb).symm⟩
        · exact ih (f row) [row] (by simp) (by simp) gr h

-- ### Claim theorems

/-- C1: for every input sequence sorted by the grouping key (all records
sharing a key contiguous) and every key function `f`, `groupBy` emits
exactly one group per maximal run of equal consecutive keys: the number of
emitted groups equals the number of maximal runs of equal consecutive keys
of the input. -/
theorem groupBy_length_eq_countRuns {K T : Type} [DecidableEq K]
    (f : T → K) (rows : List T) (hsorted : contiguousKeys (rows.map f)) :
    (groupBy rows (fun r => some (f r))).length = countRuns (rows.map f) := by
  cases rows with
  | nil => rfl
  | cons row rest =>
      have h := groupByAux_length_countRuns f rest (f row) [row] (by simp)
      simpa [groupBy, groupByAux] using h

/-- C1 witness: the sorted three-record input with keys `[1, 1, 2]` has two
maximal runs and `groupBy` emits two groups. -/
theorem groupBy_length_eq_countRuns_witness :
    contiguousKeys (List.map (fun n : Nat => n) [1, 1, 2]) ∧
      (groupBy [1, 1, 2] (fun n : Nat => some n)).length
        = countRuns (List.map (fun n : Nat => n) [1, 1, 2]) :=
  ⟨by decide, groupBy_length_eq_countRuns (fun n : Nat => n) [1, 1, 2] (by decide)⟩

/-- C2: for every input sequence (sorted or not) and every key function,
concatenating the emitted groups in emission order reproduces the input
exactly — no record lost, duplicated, or reordered. -/
theorem groupBy_flatten_eq_input {K T : Type} [DecidableEq K]
    (f : T → Option K) (rows : List T) :
    (groupBy rows f).flatten = rows := by
  simpa [groupBy] using groupByAux_join f rows none []

/-- C3: for every input sequence sorted by the grouping key and every key
function `f`, every group emitted by `groupBy` is non-empty, all its
records map to the same key under `f`, and the group is a contiguous
segment of the input in source order. -/
theorem groupBy_groups_wellformed {K T : Type} [DecidableEq K]
    (f : T → K) (rows : List T) (hsorted : contiguousKeys (rows.map f))
    (g : List T) (hg : g ∈ groupBy rows (fun r => some (f r))) :
    g ≠ [] ∧ (∀ a ∈ g, ∀ b ∈ g, f a = f b) ∧ List.IsInfix g rows := by
  have hinfix : List.IsInfix g rows := by
    have hj := groupByAux_join (fun r => some (f r)) rows none []
    have hmem : List.IsInfix g (groupBy rows (fun r => some (f r))).flatten :=
      List.infix_of_mem_flatten hg
    rw [groupBy] at hmem
    rw [hj] at hmem
    simpa using hmem
  cases rows with
  | nil =>
      simp [groupBy, groupByAux] at hg
  | cons row rest =>
      have hg2 : g ∈ groupByAux (fun r => some (f r)) (some (f row)) [row] rest := by
        simpa [groupBy, groupByAux] using hg
      have h := groupByAux_sameKey f rest (f row) [row] (by simp) (by simp) g hg2
      exact ⟨h.1, h.2, hinfix⟩

/-- C3 witness: on the sorted input `[1, 1, 2]` with the identity key, the
emitted group `[1, 1]` is non-empty, single-keyed and an infix of the
input. -/
theorem groupBy_groups_wellformed_witness :
    contiguousKeys (List.map (fun n : Nat => n) [1, 1, 2]) ∧
      [1, 1] ∈ groupBy [1, 1, 2] (fun n : Nat => some n) ∧
      ([1, 1] ≠ ([] : List Nat) ∧
        (∀ a ∈ [1, 1], ∀ b ∈ [1, 1], (fun n : Nat => n) a = (fun n : Nat => n) b) ∧
        List.IsInfix [1, 1] [1, 1, 2]) :=
  ⟨by decide, by decide,
    groupBy_groups_wellformed (fun n : Nat => n) [1, 1, 2] (by decide) [1, 1] (by decide)⟩

/-- C4: `map` preserves length, and the `i`-th output element is `f`
applied to the `i`-th input element, for every index. -/
theorem map_length_and_elems {T B : Type} (f : T → B) (rows : List T) :
    (map rows f).length = rows.length ∧
      ∀ i : Nat, (map rows f)[i]? = Option.map f rows[i]? := by
  refine ⟨by simp [map_eq_list_map], fun i => ?_⟩
  simp [map_eq_list_map]

/-- A joined row of reservation 1 carrying line "a". -/
def rowA : Row := ⟨1, "s1", some "a", some "line a", some 1⟩

/-- A joined row of reservation 1 carrying line "b". -/
def rowB : Row := ⟨1, "s1", some "b", some "line b", some 2⟩

/-- A joined row of reservation 1 with no matched line (left-join `NULL`s). -/
def rowNull1 : Row := ⟨1, "s1", none, none, none⟩

/-- A joined row of reservation 2 with no matched line (left-join `NULL`s). -/
def rowNull2 : Row := ⟨2, "s2", none, none, none⟩

/-- C5 counterexample: on the mixed group `[rowA, rowNull1]` (first record's
child field non-null, second null) the transform projects ALL records, so
its child list is not the list of projections of only the non-null records
predicted by the claim. -/
theorem groupToReservation_not_filtered :
    (groupToReservation [rowA, rowNull1]).map Reservation.lines ≠
      some (specChildList [rowA, rowNull1]) := by
  decide

/-- C5 amended: for every non-empty group whose records either all carry a
non-null child-identifying field or all carry a null one, the transform
yields one domain object with parent fields from the first record and
child list exactly the projections of the records with non-null child
field (hence empty when the first record's field is null). -/
theorem groupToReservation_homogeneous (firstRow : Row) (rest : List Row)
    (hhom : (∀ r ∈ firstRow :: rest, r.reservation_line_id ≠ none) ∨
      (∀ r ∈ firstRow :: rest, r.reservation_line_id = none)) :
    groupToReservation (firstRow :: rest) =
      some ⟨firstRow.reservation_id, firstRow.store_id,
        specChildList (firstRow :: rest)⟩ := by
  rcases hhom with h | h
  · have h0 : firstRow.reservation_line_id ≠ none := h firstRow (by simp)
    have hfilter : (firstRow :: rest).filter
        (fun r => r.reservation_line_id.isSome) = firstRow :: rest :=
      List.filter_eq_self.mpr (fun a ha => by
        simpa [Option.isSome_iff_ne_none] using h a ha)
    simp [groupToReservation, specChildList, h0, hfilter]
  · have h0 : firstRow.reservation_line_id = none := h firstRow (by simp)
    have hfilter : (firstRow :: rest).filter
        (fun r => r.reservation_line_id.isSome) = [] :=
      List.filter_eq_nil_iff.mpr (fun a ha => by simp [h a ha])
    simp [groupToReservation, specChildList, h0, hfilter]

/-- C5 witness: the childless single-row group of reservation 1. -/
theorem groupToReservation_homogeneous_witness :
    ((∀ r ∈ rowNull1 :: ([] : List Row), r.reservation_line_id ≠ none) ∨
      (∀ r ∈ rowNull1 :: ([] : List Row), r.reservation_line_id = none)) ∧
    groupToReservation (rowNull1 :: []) =
      some ⟨rowNull1.reservation_id, rowNull1.store_id,
        specChildList (rowNull1 :: [])⟩ :=
  ⟨Or.inr (by decide),
    groupToReservation_homogeneous rowNull1 [] (Or.inr (by decide))⟩

/-- C6: if `f` succeeds on every element before position `i` and throws at
position `i`, `map` yields exactly the mapped prefix followed by the
propagated failure, yields nothing for the failing element, and pulls no
further input (the result is the same with the rest of the input
removed). -/
theorem mapExcept_fail_fast {T B E : Type} (f : T → Except E B) (fok : T → B)
    (pre suf : List T) (bad : T) (e : E)
    (hpre : ∀ x ∈ pre, f x = Except.ok (fok x))
    (hbad : f bad = Except.error e) :
    mapExcept f (pre ++ bad :: suf) = (map pre fok, some e) ∧
      mapExcept f (pre ++ bad :: suf) = mapExcept f (pre ++ [bad]) := by
  induction pre with
  | nil => simp [mapExcept, hbad, map]
  | cons x xs ih =>
      have hx : f x = Except.ok (fok x) := hpre x (by simp)
      have ih2 := ih (fun y hy => hpre y (List.mem_cons_of_mem x hy))
      constructor
      · simp [mapExcept, hx, map, ih2.1]
      · simp [mapExcept, hx, ih2.2]

/-- Sample fallible function for the C6 witness. -/
def throwOnZero (n : Nat) : Except String Nat :=
  if n = 0 then Except.error "boom" else Except.ok (n + 1)

/-- C6 witness: `throwOnZero` succeeds on `[1, 2]`, throws at `0`, and
`map` emits the mapped prefix then the failure without pulling `[5]`. -/
theorem mapExcept_fail_fast_witness :
    (∀ x ∈ [1, 2], throwOnZero x = Except.ok (x + 1)) ∧
      throwOnZero 0 = Except.error "boom" ∧
      (mapExcept throwOnZero ([1, 2] ++ 0 :: [5]) =
          (map [1, 2] (fun n => n + 1), some "boom") ∧
        mapExcept throwOnZero ([1, 2] ++ 0 :: [5]) =
          mapExcept throwOnZero ([1, 2] ++ [0])) :=
  ⟨by intro x hx; fin_cases hx <;> rfl, rfl,
    mapExcept_fail_fast throwOnZero (fun n => n + 1) [1, 2] [5] 0 "boom"
      (by intro x hx; fin_cases hx <;> rfl) rfl⟩

/-- C7: on the empty input `groupBy` emits zero groups (no trailing
emission), and the composed pipeline (group, build domain objects,
serialize) emits zero lines, for every key function and serializer. -/
theorem pipeline_empty {K T S : Type} [DecidableEq K] (f : T → Option K)
    (ser : Option Reservation → S) :
    groupBy ([] : List T) f = [] ∧ map (groupedReservations []) ser = [] :=
  ⟨rfl, rfl⟩

/-- C8: on the non-monotonic key sequence `[1, 2, 1]` the operator emits
three groups `(1), (2), (1)` — the two non-contiguous key-1 runs are not
merged. -/
theorem groupBy_nonmonotonic_three_groups :
    groupBy [1, 2, 1] (fun n : Nat => some n) = [[1], [2], [1]] := by
  decide

/-- C9: on the three joined rows of reservations 1 (lines "a", "b") and 2
(no lines), the grouping and transform stages produce exactly the two
domain objects `{id := 1, lines := [a, b]}` and `{id := 2, lines := []}`. -/
theorem pipeline_two_reservations :
    groupedReservations [rowA, rowB, rowNull2] =
      [some ⟨1, "s1", [⟨some "a", some "line a", some 1⟩,
          ⟨some "b", some "line b", some 2⟩]⟩,
        some ⟨2, "s2", []⟩] := by
  decide

/-- Key function returning the JS value `undefined` (here `none`) on the
record `1` and the record's own value otherwise. -/
def keyOrUndefined (n : Nat) : Option Nat :=
  if n = 1 then none else some n

/-- C10 counterexample: a record whose extracted key is undefined DOES
close the current group when a key is already set: on input `[2, 1]` with
`keyOrUndefined` the group `[2]` is closed by the undefined-keyed record
`1`, so two groups are emitted, not the single group the claim predicts. -/
theorem groupBy_undefined_closes_group :
    groupBy [2, 1] keyOrUndefined = [[2], [1]] ∧
      groupBy [2, 1] keyOrUndefined ≠ [[2, 1]] := by
  decide

/-- C10 amended: `undefined` is the 'no key set yet' sentinel: while no
key is set, a record whose extracted key is undefined joins the current
group without fixing a group key; in particular the input `[1, 2]` with
`keyOrUndefined` (key undefined, then key 2) yields the single mixed-key
group `[1, 2]`. (A record with undefined key does, however, close a group
whose key is already set.) -/
theorem groupBy_undefined_sentinel {K T : Type} [DecidableEq K]
    (f : T → Option K) (row : T) (rest : List T) (g : List T)
    (hrow : f row = none) :
    groupByAux f none g (row :: rest) = groupByAux f none (g ++ [row]) rest ∧
      groupBy [1, 2] keyOrUndefined = [[1, 2]] := by
  refine ⟨?_, by decide⟩
  simp [groupByAux, hrow]

/-- C10 witness: the undefined-keyed record `1` joins the open group
without fixing a key. -/
theorem groupBy_undefined_sentinel_witness :
    keyOrUndefined 1 = none ∧
      (groupByAux keyOrUndefined none [] (1 :: [2]) =
          groupByAux keyOrUndefined none ([] ++ [1]) [2] ∧
        groupBy [1, 2] keyOrUndefined = [[1, 2]]) :=
  ⟨by decide, groupBy_undefined_sentinel keyOrUndefined 1 [2] [] (by decide)⟩
